import Mathlib

set_option maxHeartbeats 1000000
set_option autoImplicit false

/-!
Shallow embedding of the zvault repository core (src/repository/mod.rs,
src/repository/vacuum.rs, src/cli/mod.rs) and proofs about the claims on it.

Components whose source is not part of the four given files (the chunk Index,
the Bundle Map, the Bundle DB, analyze_usage, put_chunk_override) are modelled
from the specification, section 4.3, 4.5, 4.6 and 4.8; their doc comments say
so explicitly.  Filesystem and network effects (directory creation, symlinks,
fsync, locking) are modelled as always-succeeding no-ops; all decision logic
of the source is kept.
-/

deriving instance DecidableEq for Except

abbrev Hash := Nat

abbrev ContentId := Nat

/-- Bundle mode, src data model: a bundle is either a data or a meta bundle. -/
inductive BundleMode where
  | Data
  | Meta
deriving DecidableEq

/-- Location of a chunk: (bundle-id, chunk index inside the bundle). -/
structure Location where
  bundle : Nat
  chunk : Nat
deriving DecidableEq

/-- The chunk index is a persistent map hash -> Location; modelled as an
association list with first-match lookup. -/
abbrev Index := List (Hash × Location)

/-- Modelled from the spec: Index.get (spec 4.3), the external index crate is
not among the given source files.  First-match association lookup. -/
def idxGet (idx : Index) (h : Hash) : Option Location :=
  (idx.find? (fun e => decide (e.1 = h))).map (fun e => e.2)

/-- Modelled from the spec: Index.set (spec 4.3): replace the binding of the
hash if present, else append a new binding. -/
def idxSet : Index → Hash → Location → Index
  | [], h, l => [(h, l)]
  | e :: rest, h, l => if e.1 = h then (h, l) :: rest else e :: idxSet rest h l

/-- Modelled from the spec: Index.delete (spec 4.3): remove the binding. -/
def idxDelete (idx : Index) (h : Hash) : Index :=
  idx.filter (fun e => decide (e.1 ≠ h))

/-- The bundle map: small integer id -> bundle content id. -/
abbrev BundleMap := List (Nat × ContentId)

/-- Modelled from the spec: BundleMap.get (spec 4.6), bundle_map.rs is not
among the given source files. -/
def bmGet (m : BundleMap) (id : Nat) : Option ContentId :=
  (m.find? (fun e => decide (e.1 = id))).map (fun e => e.2)

/-- Modelled from the spec: BundleMap.set (spec 4.6). -/
def bmSet : BundleMap → Nat → ContentId → BundleMap
  | [], id, cid => [(id, cid)]
  | e :: rest, id, cid =>
      if e.1 = id then (id, cid) :: rest else e :: bmSet rest id cid

/-- Modelled from the spec: BundleMap.remove (spec 4.6): returns the removed
content id (if any) together with the map without that id. -/
def bmRemove (m : BundleMap) (id : Nat) : Option ContentId × BundleMap :=
  (bmGet m id, m.filter (fun e => decide (e.1 ≠ id)))

/-- Modelled from the spec: BundleMap.find (spec 4.6): reverse lookup from
content id to small id. -/
def bmFind (m : BundleMap) (cid : ContentId) : Option Nat :=
  (m.find? (fun e => decide (e.2 = cid))).map (fun e => e.1)

/-- Bundle metadata, as used by the four given source files: content id,
mode, encoded size (src data model plus spec section 3). -/
structure BundleInfo where
  id : ContentId
  mode : BundleMode
  encoded_size : Nat
deriving DecidableEq

/-- A stored bundle: header info, chunk list (hash, raw length) and the chunk
payloads (spec section 4.4; payload bytes modelled as lists of naturals). -/
structure StoredBundle where
  info : BundleInfo
  chunks : List (Hash × Nat)
  data : List (List Nat)
deriving DecidableEq

/-- An active bundle writer accumulating (hash, payload) pairs for one mode
(spec section 4.5). -/
structure BundleWriter where
  mode : BundleMode
  chunks : List (Hash × List Nat)
deriving DecidableEq

/-- Raw size accumulated in a writer. -/
def writerSize (w : BundleWriter) : Nat :=
  (w.chunks.map (fun c => c.2.length)).sum

/-- Modelled from the spec: the Bundle DB state (spec 4.5), bundledb source
is not among the given files: stored bundles keyed by content id, the set of
locally cached content ids, and a counter supplying fresh content ids. -/
structure BundleDb where
  bundles : List (ContentId × StoredBundle)
  local_cached : List ContentId
  next_cid : Nat
deriving DecidableEq

/-- Modelled from the spec: BundleDb bundle lookup by content id. -/
def dbGetBundle (db : BundleDb) (cid : ContentId) : Option StoredBundle :=
  (db.bundles.find? (fun e => decide (e.1 = cid))).map (fun e => e.2)

/-- Modelled from the spec: BundleDb.get_chunk_list (spec 4.5). -/
def dbGetChunkList (db : BundleDb) (cid : ContentId) : Option (List (Hash × Nat)) :=
  (dbGetBundle db cid).map (fun b => b.chunks)

/-- Modelled from the spec: BundleDb.get_chunk (spec 4.5). -/
def dbGetChunk (db : BundleDb) (cid : ContentId) (i : Nat) : Option (List Nat) :=
  (dbGetBundle db cid).bind (fun b => b.data.get? i)

/-- Modelled from the spec: BundleDb.add_bundle (spec 4.5): finalize a writer,
assign it a fresh content id, store it and cache it locally. -/
def BundleDb.add_bundle (db : BundleDb) (w : BundleWriter) : BundleInfo × BundleDb :=
  let cid := db.next_cid
  let info : BundleInfo := ⟨cid, w.mode, writerSize w⟩
  let stored : StoredBundle :=
    ⟨info, w.chunks.map (fun c => (c.1, c.2.length)), w.chunks.map (fun c => c.2)⟩
  (info, ⟨db.bundles ++ [(cid, stored)], db.local_cached ++ [cid], cid + 1⟩)

/-- Modelled from the spec: BundleDb.delete_bundle (spec 4.5): remove the
bundle from the remote store and from the local cache. -/
def dbDeleteBundle (db : BundleDb) (cid : ContentId) : BundleDb :=
  ⟨db.bundles.filter (fun e => decide (e.1 ≠ cid)),
   db.local_cached.filter (fun c => decide (c ≠ cid)), db.next_cid⟩

/-- Modelled from the spec: BundleDb.delete_local_bundle (spec 4.5):
cache-only deletion. -/
def dbDeleteLocalBundle (db : BundleDb) (cid : ContentId) : BundleDb :=
  ⟨db.bundles, db.local_cached.filter (fun c => decide (c ≠ cid)), db.next_cid⟩

/-- Repository configuration; only the target bundle size is relevant to the
given source files. -/
structure Config where
  bundle_size : Nat
deriving DecidableEq

/-- The Repository state (struct Repository, src/repository/mod.rs lines
37-52).  Paths, the crypto key store, the chunker and the lock folder are
process/IO state and are not part of the model; `dirty` is the flag assigned
by vacuum.rs. -/
structure Repository where
  config : Config
  index : Index
  bundle_map : BundleMap
  next_data_bundle : Nat
  next_meta_bundle : Nat
  bundles : BundleDb
  data_bundle : Option BundleWriter
  meta_bundle : Option BundleWriter
  dirty : Bool
deriving DecidableEq

/-- Error values produced on the modelled paths.  `panic_index_referenced`
models the panic! in vacuum.rs lines 103-109 and carries the repository state
at the moment of the abort (no bundle deletion has been applied to it). -/
inductive RepositoryError where
  | missing_bundle_id (id : Nat)
  | missing_bundle (cid : ContentId)
  | missing_chunk (cid : ContentId) (chunk : Nat)
  | unwrap_panic
  | missing_usage (id : Nat)
  | panic_index_referenced (st : Repository)
deriving DecidableEq

/-- Bounded linear search mirroring the while loop of next_free_bundle_id
(mod.rs lines 190-192); the fuel is always sufficient (see
searchFree_spec). -/
def searchFree (m : BundleMap) : Nat → Nat → Nat
  | id, 0 => id
  | id, fuel + 1 => if bmGet m id = none then id else searchFree m (id + 1) fuel

/-- Repository::next_free_bundle_id (mod.rs lines 187-194): start from
max(next_data, next_meta) + 1 and skip ids present in the bundle map. -/
def Repository.next_free_bundle_id (st : Repository) : Nat :=
  searchFree st.bundle_map (Nat.max st.next_data_bundle st.next_meta_bundle + 1)
    (st.bundle_map.length + 1)

/-- Finalization of the active data writer: the data branch of flush
(mod.rs lines 197-205). -/
def Repository.finalize_data_bundle (st : Repository) (w : BundleWriter) : Repository :=
  let r := st.bundles.add_bundle w
  let st := { st with data_bundle := none, bundles := r.2,
                      bundle_map := bmSet st.bundle_map st.next_data_bundle r.1.id }
  { st with next_data_bundle := st.next_free_bundle_id }

/-- Finalization of the active meta writer: the meta branch of flush
(mod.rs lines 206-214). -/
def Repository.finalize_meta_bundle (st : Repository) (w : BundleWriter) : Repository :=
  let r := st.bundles.add_bundle w
  let st := { st with meta_bundle := none, bundles := r.2,
                      bundle_map := bmSet st.bundle_map st.next_meta_bundle r.1.id }
  { st with next_meta_bundle := st.next_free_bundle_id }

/-- Repository::flush (mod.rs lines 196-218): finalize both active writers;
save_bundle_map and save_cache are persistence effects with no in-memory
state change. -/
def Repository.flush (st : Repository) : Repository :=
  let st := match st.data_bundle with
    | some w => st.finalize_data_bundle w
    | none => st
  match st.meta_bundle with
  | some w => st.finalize_meta_bundle w
  | none => st

/-- Modelled from the spec: put_chunk_override (spec 4.8; basic_io.rs is not
among the given source files): unconditionally append the chunk to the active
writer of the mode, record the new Location in the index, and finalize the
writer when it has reached the configured bundle size. -/
def Repository.put_chunk_override (st : Repository) (mode : BundleMode)
    (h : Hash) (data : List Nat) : Repository :=
  match mode with
  | BundleMode.Data =>
      let w0 := st.data_bundle.getD ⟨BundleMode.Data, []⟩
      let loc : Location := ⟨st.next_data_bundle, w0.chunks.length⟩
      let w : BundleWriter := ⟨BundleMode.Data, w0.chunks ++ [(h, data)]⟩
      let st := { st with index := idxSet st.index h loc, data_bundle := some w }
      if st.config.bundle_size ≤ writerSize w then st.finalize_data_bundle w else st
  | BundleMode.Meta =>
      let w0 := st.meta_bundle.getD ⟨BundleMode.Meta, []⟩
      let loc : Location := ⟨st.next_meta_bundle, w0.chunks.length⟩
      let w : BundleWriter := ⟨BundleMode.Meta, w0.chunks ++ [(h, data)]⟩
      let st := { st with index := idxSet st.index h loc, meta_bundle := some w }
      if st.config.bundle_size ≤ writerSize w then st.finalize_meta_bundle w else st

/-- A filesystem path, abstracted to the one property the claims are about:
whether it is absolute (Path::is_absolute in the source). -/
structure FsPath where
  absolute : Bool
deriving DecidableEq

/-- Repository::create (mod.rs lines 56-95).  The filesystem effects
(directory skeleton, README, excludes, symlink to `remote`, empty index and
bundle map files) are modelled as always succeeding; the function performs no
check on `remote` (in particular no absoluteness check) and returns the open
repository with an empty index, an empty bundle map, next_data_bundle = 1 and
next_meta_bundle = 0, exactly as in the source. -/
def Repository.create (config : Config) (remote : FsPath) : Except RepositoryError Repository :=
  Except.ok
    { config := config
      index := []
      bundle_map := []
      next_data_bundle := 1
      next_meta_bundle := 0
      bundles := ⟨[], [], 0⟩
      data_bundle := none
      meta_bundle := none
      dirty := false }

/-- Per-bundle usage analysis result (spec 4.8): header info, the chunk-in-use
bitmap and the used raw size. -/
structure BundleAnalysis where
  info : BundleInfo
  chunk_usage : List Bool
  used_size : Nat
deriving DecidableEq

/-- Modelled from the spec: BundleAnalysis.get_used_size (info.rs is not among
the given source files). -/
def BundleAnalysis.get_used_size (a : BundleAnalysis) : Nat := a.used_size

/-- Modelled from the spec: BundleAnalysis.get_unused_size. -/
def BundleAnalysis.get_unused_size (a : BundleAnalysis) : Nat :=
  a.info.encoded_size - a.used_size

/-- Modelled from the spec: BundleAnalysis.get_usage_ratio, the fraction of
the bundle still in use (used size over encoded size); modelled over the
rationals instead of f32. -/
def BundleAnalysis.get_usage_ratio (a : BundleAnalysis) : ℚ :=
  mkRat a.used_size a.info.encoded_size

/-- Modelled from the spec: the chunk-in-use bitmap of analyze_usage
(spec 4.8): a chunk is in use iff the index still maps its hash to this
bundle at this chunk index. -/
def chunkUsageOf (idx : Index) (id : Nat) (chunks : List (Hash × Nat)) : List Bool :=
  chunks.enum.map (fun p => decide (idxGet idx p.2.1 = some ⟨id, p.1⟩))

/-- Modelled from the spec: the used raw size of a bundle under a usage
bitmap. -/
def usedSizeCalc (chunks : List (Hash × Nat)) (cu : List Bool) : Nat :=
  (((chunks.zip cu).filter (fun p => p.2)).map (fun p => p.1.2)).sum

/-- Modelled from the spec: analyze_usage (spec 4.8, info.rs is not among the
given source files): one BundleAnalysis per bundle-map entry whose content id
resolves in the Bundle DB, keyed by the small bundle id. -/
def analyzeUsageList (st : Repository) : List (Nat × BundleAnalysis) :=
  st.bundle_map.filterMap (fun e =>
    (dbGetBundle st.bundles e.2).map (fun b =>
      (e.1, ⟨b.info, chunkUsageOf st.index e.1 b.chunks,
             usedSizeCalc b.chunks (chunkUsageOf st.index e.1 b.chunks)⟩)))

/-- Modelled from the spec: Repository::analyze_usage sets the dirty flag
(vacuum.rs line 26: analyze_usage will set the dirty flag) and returns the
per-bundle usage. -/
def Repository.analyze_usage (st : Repository) :
    List (Nat × BundleAnalysis) × Repository :=
  (analyzeUsageList st, { st with dirty := true })

/-- HashSet::insert on a list model: add the element if it is not present. -/
def hsInsert (s : List Nat) (x : Nat) : List Nat :=
  if x ∈ s then s else s ++ [x]

/-- The usage-ratio selection loop of vacuum (vacuum.rs lines 41-48): collect
into the rewrite set every bundle whose usage ratio is at most `ratio`,
accumulating the reclaimable space of exactly those bundles. -/
def vacuumSelect (ratio : ℚ) (usage : List (Nat × BundleAnalysis)) :
    List Nat × Nat :=
  usage.foldl
    (fun acc e =>
      if e.2.get_usage_ratio ≤ ratio then
        (hsInsert acc.1 e.1, acc.2 + e.2.get_unused_size)
      else acc)
    ([], 0)

/-- The combine branch of vacuum (vacuum.rs lines 49-70): split the small
bundles (encoded_size * 4 < bundle_size) by mode, and add each mode's small
bundles to the rewrite set only when that mode has at least two of them. -/
def vacuumCombine (combine : Bool) (bundle_size : Nat)
    (usage : List (Nat × BundleAnalysis)) (s : List Nat) : List Nat :=
  if combine then
    let sm := usage.foldl
      (fun (acc : List Nat × List Nat) e =>
        if e.2.info.encoded_size * 4 < bundle_size then
          match e.2.info.mode with
          | BundleMode.Meta => (acc.1 ++ [e.1], acc.2)
          | BundleMode.Data => (acc.1, acc.2 ++ [e.1])
        else acc)
      ([], [])
    let s1 := if 2 ≤ sm.1.length then sm.1.foldl hsInsert s else s
    if 2 ≤ sm.2.length then sm.2.foldl hsInsert s1 else s1
  else s

/-- The rewrite set of vacuum (vacuum.rs lines 41-70): ratio selection plus
the combine branch. -/
def rewriteSet (ratio : ℚ) (combine : Bool) (bundle_size : Nat)
    (usage : List (Nat × BundleAnalysis)) : List Nat :=
  vacuumCombine combine bundle_size usage (vacuumSelect ratio usage).1

/-- The per-chunk body of the vacuum rewrite loop (vacuum.rs lines 90-97),
over the enumerated chunk list of one bundle: unused chunks are deleted from
the index, used chunks are re-written through put_chunk_override. -/
def rewriteChunks (mode : BundleMode) (cu : List Bool) (bid : ContentId) :
    List (Nat × (Hash × Nat)) → Repository → Except RepositoryError Repository
  | [], st => Except.ok st
  | c :: rest, st =>
      if ! cu.getD c.1 false then
        rewriteChunks mode cu bid rest { st with index := idxDelete st.index c.2.1 }
      else
        match dbGetChunk st.bundles bid c.1 with
        | none => Except.error (RepositoryError.missing_chunk bid c.1)
        | some data =>
            rewriteChunks mode cu bid rest (st.put_chunk_override mode c.2.1 data)

/-- The per-bundle vacuum rewrite loop (vacuum.rs lines 80-98): for each id in
the rewrite set, look its analysis up in `usage` (usage[id] would panic if
absent), unwrap its content id from the bundle map, fetch its chunk list and
process every chunk. -/
def rewriteLoop (usage : List (Nat × BundleAnalysis)) :
    List Nat → Repository → Except RepositoryError Repository
  | [], st => Except.ok st
  | id :: rest, st =>
      match (usage.find? (fun e => decide (e.1 = id))).map (fun e => e.2) with
      | none => Except.error (RepositoryError.missing_usage id)
      | some bundle =>
          match bmGet st.bundle_map id with
          | none => Except.error RepositoryError.unwrap_panic
          | some bid =>
              match dbGetChunkList st.bundles bid with
              | none => Except.error (RepositoryError.missing_bundle bid)
              | some chunks =>
                  match rewriteChunks bundle.info.mode bundle.chunk_usage bid
                      chunks.enum st with
                  | Except.error e => Except.error e
                  | Except.ok st' => rewriteLoop usage rest st'

/-- Repository::delete_bundle (vacuum.rs lines 7-14): remove the id from the
bundle map and delete the stored bundle; MissingBundleId error when the id is
not mapped. -/
def Repository.delete_bundle (st : Repository) (id : Nat) :
    Except RepositoryError Repository :=
  match bmRemove st.bundle_map id with
  | (some bundle, bm) =>
      Except.ok { st with bundle_map := bm, bundles := dbDeleteBundle st.bundles bundle }
  | (none, _) => Except.error (RepositoryError.missing_bundle_id id)

/-- The deletion loop of vacuum (vacuum.rs lines 111-114). -/
def deleteLoop : List Nat → Repository → Except RepositoryError Repository
  | [], st => Except.ok st
  | id :: rest, st =>
      match st.delete_bundle id with
      | Except.error e => Except.error e
      | Except.ok st' => deleteLoop rest st'

/-- Repository::vacuum (vacuum.rs lines 16-118).  write_mode and the lock
acquisition are IO effects modelled as no-ops; the info! reports are logging
only.  The panic! at lines 103-109 is modelled as the error
`panic_index_referenced`, carrying the state at the abort: at that point the
rewrite phase and its flush have run but no bundle has been deleted. -/
def Repository.vacuum (st : Repository) (ratio : ℚ) (combine force : Bool) :
    Except RepositoryError Repository :=
  let st1 := st.flush
  let usage := st1.analyze_usage.1
  let st2 := st1.analyze_usage.2
  let rewrite_bundles := rewriteSet ratio combine st1.config.bundle_size usage
  if ! force then
    Except.ok { st2 with dirty := false }
  else
    match rewriteLoop usage rewrite_bundles st2 with
    | Except.error e => Except.error e
    | Except.ok st3 =>
        let st4 := st3.flush
        if st4.index.any (fun e => rewrite_bundles.contains e.2.bundle) then
          Except.error (RepositoryError.panic_index_referenced st4)
        else
          match deleteLoop rewrite_bundles st4 with
          | Except.error e => Except.error e
          | Except.ok st5 => Except.ok { st5 with dirty := false }

/-- The rewrite set as computed inside vacuum, exposed as a function of the
starting state: selection happens on the flushed state. -/
def vacuumRewriteIds (st : Repository) (ratio : ℚ) (combine : Bool) : List Nat :=
  rewriteSet ratio combine st.flush.config.bundle_size st.flush.analyze_usage.1

/-- The state of vacuum after the rewrite phase and its flush (vacuum.rs
lines 80-99), just before the index check. -/
def vacuumAfterRewrite (st : Repository) (ratio : ℚ) (combine : Bool) :
    Except RepositoryError Repository :=
  match rewriteLoop st.flush.analyze_usage.1
      (rewriteSet ratio combine st.flush.config.bundle_size st.flush.analyze_usage.1)
      st.flush.analyze_usage.2 with
  | Except.error e => Except.error e
  | Except.ok st3 => Except.ok st3.flush

/-- Repository::remove_gone_remote_bundle (mod.rs lines 251-259): when the
content id of the gone bundle is mapped, delete the local cache entry, filter
its locations out of the index and remove the id from the bundle map;
otherwise do nothing. -/
def Repository.remove_gone_remote_bundle (st : Repository) (bundle : BundleInfo) :
    Repository :=
  match bmFind st.bundle_map bundle.id with
  | some id =>
      let st := { st with bundles := dbDeleteLocalBundle st.bundles bundle.id }
      let st := { st with index := st.index.filter (fun e => decide (e.2.bundle ≠ id)) }
      { st with bundle_map := (bmRemove st.bundle_map id).2 }
  | none => st

/-- The inner loop of Repository::rebuild_index (mod.rs lines 240-249) over
the bundle map entries, carrying the index being rebuilt. -/
def rebuildIndexGo (db : BundleDb) :
    List (Nat × ContentId) → Index → Except RepositoryError Index
  | [], idx => Except.ok idx
  | e :: rest, idx =>
      match dbGetChunkList db e.2 with
      | none => Except.error (RepositoryError.missing_bundle e.2)
      | some chunks =>
          rebuildIndexGo db rest
            (chunks.enum.foldl (fun i p => idxSet i p.2.1 ⟨e.1, p.1⟩) idx)

/-- Repository::rebuild_index (mod.rs lines 240-249): clear the index, then
for every (id, content-id) pair of the bundle map insert one entry per
position of that bundle's chunk list. -/
def Repository.rebuild_index (st : Repository) : Except RepositoryError Repository :=
  match rebuildIndexGo st.bundles st.bundle_map [] with
  | Except.error e => Except.error e
  | Except.ok idx => Except.ok { st with index := idx }

/-- CLI error codes (src/cli/mod.rs); only the ones on the Init path are
modelled. -/
inductive ErrorCode where
  | invalid_args
  | create_repository
deriving DecidableEq

/-- The Init arm of run (src/cli/mod.rs lines 422-448): reject a relative
remote path with InvalidArgs before ever calling Repository::create; the
key-generation tail of the arm is IO and is not modelled. -/
def cliInitRun (config : Config) (remote_path : FsPath) :
    Except ErrorCode Repository :=
  if ! remote_path.absolute then Except.error ErrorCode.invalid_args
  else
    match Repository.create config remote_path with
    | Except.ok repo => Except.ok repo
    | Except.error _ => Except.error ErrorCode.create_repository

/-! Concrete repository states used as witnesses and counterexamples. -/

/-- An empty repository (as produced by open on a fresh repository). -/
def demoRepoEmpty : Repository :=
  { config := ⟨100⟩, index := [], bundle_map := [], next_data_bundle := 1,
    next_meta_bundle := 1, bundles := ⟨[], [], 0⟩, data_bundle := none,
    meta_bundle := none, dirty := false }

/-- A repository violating index invariant I2: the index maps hash 7 to
chunk 0 of bundle 5, but bundle 5 (content id 0) has an empty chunk list.
Vacuum selects bundle 5 (usage ratio 0), its rewrite touches no chunk, so
the index entry survives and the final check panics. -/
def demoRepoStale : Repository :=
  { config := ⟨100⟩, index := [(7, ⟨5, 0⟩)], bundle_map := [(5, 0)],
    next_data_bundle := 1, next_meta_bundle := 1,
    bundles := ⟨[(0, ⟨⟨0, BundleMode.Meta, 4⟩, [], []⟩)], [0], 1⟩,
    data_bundle := none, meta_bundle := none, dirty := false }

/-- A repository with one remote bundle (content id 9, mapped to id 3) whose
locations are in the index, used to exercise remove_gone_remote_bundle. -/
def demoRepoGone : Repository :=
  { config := ⟨100⟩,
    index := [(7, ⟨3, 0⟩), (8, ⟨4, 1⟩)],
    bundle_map := [(3, 9), (4, 12)],
    next_data_bundle := 5, next_meta_bundle := 5,
    bundles := ⟨[(9, ⟨⟨9, BundleMode.Data, 3⟩, [(7, 3)], [[1, 2, 3]]⟩)], [9, 12], 13⟩,
    data_bundle := none, meta_bundle := none, dirty := false }

/-- A repository with one bundle of two chunks, used to exercise
rebuild_index. -/
def demoRepoRebuild : Repository :=
  { config := ⟨100⟩, index := [(42, ⟨0, 0⟩)],
    bundle_map := [(2, 10)],
    next_data_bundle := 3, next_meta_bundle := 3,
    bundles := ⟨[(10, ⟨⟨10, BundleMode.Data, 7⟩, [(7, 3), (8, 4)], [[1, 2, 3], [4, 5, 6, 9]]⟩)], [10], 11⟩,
    data_bundle := none, meta_bundle := none, dirty := false }

/-- A usage map with two fully-used small meta bundles: not selected by any
usage-ratio threshold below 1, but added to the rewrite set by the combine
branch; each has 3 unused bytes that the reclaim report does not count. -/
def demoUsageSmall : List (Nat × BundleAnalysis) :=
  [(5, ⟨⟨10, BundleMode.Meta, 8⟩, [true], 5⟩),
   (6, ⟨⟨11, BundleMode.Meta, 8⟩, [true], 5⟩)]

/-- The repository returned by Repository::create with bundle size 100
(next_data_bundle = 1, next_meta_bundle = 0, everything empty). -/
def createdRepo : Repository :=
  { config := ⟨100⟩, index := [], bundle_map := [], next_data_bundle := 1,
    next_meta_bundle := 0, bundles := ⟨[], [], 0⟩, data_bundle := none,
    meta_bundle := none, dirty := false }

/-- The insertion sequence of rebuild_index, following the claim's words: for
every (id, content-id) pair in the bundle map, in order, one entry
(hash, Location(id, i)) per position i of that bundle's chunk list.  Used to
state the specification of rebuild_index; comparison with the source
translation rebuildIndexGo is the content of the rebuild_index theorem. -/
def rebuildEntrySeq (st : Repository) : List (Hash × Location) :=
  st.bundle_map.bind (fun e =>
    ((dbGetChunkList st.bundles e.2).getD []).enum.map
      (fun p => (p.2.1, (⟨e.1, p.1⟩ : Location))))

/-- The state demoRepoRebuild reaches after rebuild_index. -/
def demoRepoRebuilt : Repository :=
  { demoRepoRebuild with index := [(7, ⟨2, 0⟩), (8, ⟨2, 1⟩)] }

/-- The state of demoRepoStale at which vacuum's index check panics: the
rewrite phase of vacuum touched nothing except setting the dirty flag. -/
def demoRepoStaleDirty : Repository :=
  { demoRepoStale with dirty := true }

/-!  ## Theorems  -/

theorem idxGet_nil (h : Hash) : idxGet [] h = none := rfl

theorem idxGet_cons (e : Hash × Location) (rest : Index) (h : Hash) :
    idxGet (e :: rest) h = if e.1 = h then some e.2 else idxGet rest h := by
  simp only [idxGet, List.find?]
  by_cases h1 : e.1 = h <;> simp [h1]

theorem idxGet_idxSet (idx : Index) (h h' : Hash) (l : Location) :
    idxGet (idxSet idx h l) h' = if h' = h then some l else idxGet idx h' := by
  induction idx with
  | nil =>
      by_cases hh : h' = h
      · simp [idxSet, idxGet_cons, hh]
      · have hh' : ¬ h = h' := fun c => hh c.symm
        simp [idxSet, idxGet_cons, hh, hh', idxGet_nil]
  | cons e rest ih =>
      by_cases he : e.1 = h
      · subst he
        by_cases hh : h' = e.1
        · simp [idxSet, idxGet_cons, hh]
        · have hh' : ¬ e.1 = h' := fun c => hh c.symm
          simp [idxSet, idxGet_cons, hh, hh']
      · simp only [idxSet, if_neg he]
        rw [idxGet_cons, idxGet_cons, ih]
        by_cases hh : h' = h
        · subst hh
          simp [he]
        · simp [hh]

/-- Claim C3: with force = false, vacuum returns Ok, clears the dirty flag,
and performs no mutation beyond the initial flush: the index, the bundle map
and the bundle store of the result are those of the flushed state.  (The
reclaimable-bytes report is logging and has no state effect.) -/
theorem vacuum_no_force (st : Repository) (ratio : ℚ) (combine : Bool) :
    ∃ st', Repository.vacuum st ratio combine false = Except.ok st' ∧
      st'.dirty = false ∧
      st'.index = st.flush.index ∧
      st'.bundle_map = st.flush.bundle_map ∧
      st'.bundles = st.flush.bundles ∧
      st'.next_data_bundle = st.flush.next_data_bundle ∧
      st'.next_meta_bundle = st.flush.next_meta_bundle :=
  ⟨{ st.flush.analyze_usage.2 with dirty := false }, rfl, rfl, rfl, rfl, rfl, rfl, rfl⟩

/-- Claim C4: remove_gone_remote_bundle.  When the gone bundle's content id is
mapped to id, the result has no local cache entry for it, no index entry
locating id, and no bundle-map binding of id; when the content id is not in
the bundle map, the state is unchanged. -/
theorem remove_gone_remote_bundle_spec (st : Repository) (bundle : BundleInfo) :
    (∀ id, bmFind st.bundle_map bundle.id = some id →
      bundle.id ∉ (st.remove_gone_remote_bundle bundle).bundles.local_cached ∧
      (∀ e ∈ (st.remove_gone_remote_bundle bundle).index, e.2.bundle ≠ id) ∧
      bmGet (st.remove_gone_remote_bundle bundle).bundle_map id = none) ∧
    (bmFind st.bundle_map bundle.id = none →
      st.remove_gone_remote_bundle bundle = st) := by
  constructor
  · intro id hfind
    simp only [Repository.remove_gone_remote_bundle, hfind]
    refine ⟨?_, ?_, ?_⟩
    · intro hmem
      simp only [dbDeleteLocalBundle, List.mem_filter, decide_eq_true_eq] at hmem
      exact hmem.2 rfl
    · intro e hmem
      have := List.of_mem_filter hmem
      simpa using this
    · simp only [bmGet, bmRemove]
      have hnone : List.find? (fun e => decide (e.1 = id))
          (List.filter (fun e => decide (e.1 ≠ id)) st.bundle_map) = none := by
        rw [List.find?_eq_none]
        intro e hmem
        have := List.of_mem_filter hmem
        simp only [decide_eq_true_eq] at this ⊢
        exact this
      rw [hnone]
      rfl
  · intro hfind
    simp only [Repository.remove_gone_remote_bundle, hfind]

/-- Claim C4 witness: a concrete gone bundle whose content id 9 is mapped to
id 3, and one whose content id 99 is unmapped. -/
theorem remove_gone_remote_bundle_spec_witness :
    (9 ∉ (demoRepoGone.remove_gone_remote_bundle ⟨9, BundleMode.Data, 3⟩).bundles.local_cached ∧
      (∀ e ∈ (demoRepoGone.remove_gone_remote_bundle ⟨9, BundleMode.Data, 3⟩).index,
        e.2.bundle ≠ 3) ∧
      bmGet (demoRepoGone.remove_gone_remote_bundle ⟨9, BundleMode.Data, 3⟩).bundle_map 3 = none) ∧
    demoRepoGone.remove_gone_remote_bundle ⟨99, BundleMode.Data, 3⟩ = demoRepoGone :=
  ⟨(remove_gone_remote_bundle_spec demoRepoGone ⟨9, BundleMode.Data, 3⟩).1 3 (by decide),
   (remove_gone_remote_bundle_spec demoRepoGone ⟨99, BundleMode.Data, 3⟩).2 (by decide)⟩

/-- Claim C9: delete_bundle.  For an unmapped id it returns MissingBundleId
and even the attempted map removal is the identity (so nothing is mutated);
for a mapped id it removes the map binding and deletes the stored bundle,
leaving the index untouched. -/
theorem delete_bundle_spec (st : Repository) (id : Nat) :
    (bmGet st.bundle_map id = none →
      st.delete_bundle id = Except.error (RepositoryError.missing_bundle_id id) ∧
      (bmRemove st.bundle_map id).2 = st.bundle_map) ∧
    (∀ cid, bmGet st.bundle_map id = some cid →
      ∃ st', st.delete_bundle id = Except.ok st' ∧
        bmGet st'.bundle_map id = none ∧
        dbGetBundle st'.bundles cid = none ∧
        st'.index = st.index) := by
  constructor
  · intro hnone
    constructor
    · simp only [Repository.delete_bundle, bmRemove, hnone]
    · simp only [bmRemove]
      rw [List.filter_eq_self]
      intro e hmem
      simp only [decide_eq_true_eq]
      intro heq
      have hf : List.find? (fun e => decide (e.1 = id)) st.bundle_map = none := by
        cases h' : List.find? (fun e => decide (e.1 = id)) st.bundle_map with
        | none => rfl
        | some f => simp [bmGet, h'] at hnone
      have := List.find?_eq_none.mp hf e hmem
      simp [heq] at this
  · intro cid hsome
    refine ⟨⟨st.config, st.index, (bmRemove st.bundle_map id).2, st.next_data_bundle,
      st.next_meta_bundle, dbDeleteBundle st.bundles cid, st.data_bundle,
      st.meta_bundle, st.dirty⟩, ?_, ?_, ?_, rfl⟩
    · simp only [Repository.delete_bundle, bmRemove, hsome]
    · simp only [bmGet, bmRemove]
      have hnone : List.find? (fun e => decide (e.1 = id))
          (List.filter (fun e => decide (e.1 ≠ id)) st.bundle_map) = none := by
        rw [List.find?_eq_none]
        intro e hmem
        have := List.of_mem_filter hmem
        simp only [decide_eq_true_eq] at this ⊢
        exact this
      rw [hnone]
      rfl
    · simp only [dbGetBundle, dbDeleteBundle]
      have hnone : List.find? (fun e => decide (e.1 = cid))
          (List.filter (fun e => decide (e.1 ≠ cid)) st.bundles.bundles) = none := by
        rw [List.find?_eq_none]
        intro e hmem
        have := List.of_mem_filter hmem
        simp only [decide_eq_true_eq] at this ⊢
        exact this
      rw [hnone]
      rfl

/-- Claim C9 witness: id 7 is unmapped in demoRepoGone (error case), id 3 is
mapped to content id 9 (success case). -/
theorem delete_bundle_spec_witness :
    (demoRepoGone.delete_bundle 7 = Except.error (RepositoryError.missing_bundle_id 7) ∧
      (bmRemove demoRepoGone.bundle_map 7).2 = demoRepoGone.bundle_map) ∧
    (∃ st', demoRepoGone.delete_bundle 3 = Except.ok st' ∧
      bmGet st'.bundle_map 3 = none ∧
      dbGetBundle st'.bundles 9 = none ∧
      st'.index = demoRepoGone.index) :=
  ⟨(delete_bundle_spec demoRepoGone 7).1 (by decide),
   (delete_bundle_spec demoRepoGone 3).2 9 (by decide)⟩

/-- Claim C7 counterexample: Repository::create performs no absoluteness
check on the remote path; called with a relative remote (and the filesystem
operations succeeding, e.g. remote = ".") it returns a repository instead of
failing. -/
theorem create_accepts_relative_remote :
    Repository.create ⟨100⟩ ⟨false⟩ = Except.ok createdRepo := rfl

/-- Claim C7 (amended): the absolute-remote validation lives in the CLI init
command, not in Repository::create: a relative remote path makes the CLI
return InvalidArgs without calling create. -/
theorem cli_init_rejects_relative_remote (config : Config) (remote_path : FsPath)
    (h : remote_path.absolute = false) :
    cliInitRun config remote_path = Except.error ErrorCode.invalid_args := by
  simp [cliInitRun, h]

/-- Claim C7 witness for the amended theorem: a concrete relative remote. -/
theorem cli_init_rejects_relative_remote_witness :
    cliInitRun ⟨100⟩ ⟨false⟩ = Except.error ErrorCode.invalid_args :=
  cli_init_rejects_relative_remote ⟨100⟩ ⟨false⟩ rfl

/-- Claim C6: the claim that bundle id 0 is never registered fails on the
code.  Repository::create initializes next_meta_bundle to 0 (mod.rs line 88,
next_data_bundle is 1), so the first meta bundle finalized after create --
before any reopen recomputes the watermarks -- is registered in the bundle
map under id 0: create, one meta-mode chunk write, flush yields a bundle map
binding id 0. -/
theorem bundle_id_zero_used_after_create :
    ∃ r, Repository.create ⟨100⟩ ⟨true⟩ = Except.ok r ∧
      r.next_meta_bundle = 0 ∧
      bmGet ((r.put_chunk_override BundleMode.Meta 7 [1]).flush).bundle_map 0 = some 0 :=
  ⟨createdRepo, rfl, rfl, by decide⟩

theorem vacuumSelect_go_snd (ratio : ℚ) (usage : List (Nat × BundleAnalysis))
    (s : List Nat) (n : Nat) :
    (usage.foldl
      (fun acc e =>
        if e.2.get_usage_ratio ≤ ratio then
          (hsInsert acc.1 e.1, acc.2 + e.2.get_unused_size)
        else acc)
      (s, n)).2 =
    n + ((usage.filter (fun e => decide (e.2.get_usage_ratio ≤ ratio))).map
          (fun e => e.2.get_unused_size)).sum := by
  induction usage generalizing s n with
  | nil => simp
  | cons e us ih =>
      by_cases hc : e.2.get_usage_ratio ≤ ratio
      · have hd : decide (e.2.get_usage_ratio ≤ ratio) = true := decide_eq_true hc
        simp only [List.foldl_cons, if_pos hc, List.filter_cons, hd, if_true,
          List.map_cons, List.sum_cons]
        rw [ih]
        omega
      · have hd : decide (e.2.get_usage_ratio ≤ ratio) = false := decide_eq_false hc
        simp only [List.foldl_cons, if_neg hc, List.filter_cons, hd,
          Bool.false_eq_true, if_false]
        exact ih s n

/-- Claim C10: the reclaimable-space figure vacuum reports (vacuum.rs lines
42-48 and 71-75) sums the unused sizes of exactly the bundles selected by the
usage-ratio threshold; the combine branch adds bundles to the rewrite set
without touching the figure.  The second conjunct exhibits a concrete usage
map where combine enlarges the rewrite set by bundles with nonzero unused
size while the reported figure stays 0, understating the space freed. -/
theorem vacuum_reclaim_ignores_combine :
    (∀ (ratio : ℚ) (usage : List (Nat × BundleAnalysis)),
      (vacuumSelect ratio usage).2 =
        ((usage.filter (fun e => decide (e.2.get_usage_ratio ≤ ratio))).map
          (fun e => e.2.get_unused_size)).sum) ∧
    (5 ∈ rewriteSet 0 true 100 demoUsageSmall ∧
      5 ∉ rewriteSet 0 false 100 demoUsageSmall ∧
      (vacuumSelect 0 demoUsageSmall).2 = 0 ∧
      (demoUsageSmall.map (fun e => e.2.get_unused_size)).sum = 6) := by
  constructor
  · intro ratio usage
    have h := vacuumSelect_go_snd ratio usage [] 0
    simpa [vacuumSelect] using h
  · exact ⟨by decide, by decide, by decide, by decide⟩

theorem mem_hsInsert (s : List Nat) (x y : Nat) :
    x ∈ hsInsert s y ↔ x ∈ s ∨ x = y := by
  unfold hsInsert
  by_cases hy : y ∈ s
  · simp only [if_pos hy]
    constructor
    · exact Or.inl
    · rintro (h | rfl)
      · exact h
      · exact hy
  · simp [if_neg hy, List.mem_append]

theorem mem_foldl_hsInsert (l : List Nat) (s : List Nat) (x : Nat) :
    x ∈ l.foldl hsInsert s ↔ x ∈ s ∨ x ∈ l := by
  induction l generalizing s with
  | nil => simp
  | cons y ys ih =>
      simp only [List.foldl_cons, ih, mem_hsInsert, List.mem_cons]
      tauto

theorem vacuumSelect_go_fst (ratio : ℚ) (usage : List (Nat × BundleAnalysis))
    (s : List Nat) (n : Nat) :
    (usage.foldl
      (fun acc e =>
        if e.2.get_usage_ratio ≤ ratio then
          (hsInsert acc.1 e.1, acc.2 + e.2.get_unused_size)
        else acc)
      (s, n)).1 =
    usage.foldl
      (fun t e => if e.2.get_usage_ratio ≤ ratio then hsInsert t e.1 else t) s := by
  induction usage generalizing s n with
  | nil => rfl
  | cons e us ih =>
      by_cases hc : e.2.get_usage_ratio ≤ ratio
      · simp only [List.foldl_cons, if_pos hc]
        exact ih (hsInsert s e.1) (n + e.2.get_unused_size)
      · simp only [List.foldl_cons, if_neg hc]
        exact ih s n

theorem mem_select_fold (ratio : ℚ) (usage : List (Nat × BundleAnalysis))
    (s : List Nat) (x : Nat) :
    x ∈ usage.foldl
        (fun t e => if e.2.get_usage_ratio ≤ ratio then hsInsert t e.1 else t) s ↔
      x ∈ s ∨ ∃ a, (x, a) ∈ usage ∧ a.get_usage_ratio ≤ ratio := by
  induction usage generalizing s with
  | nil => simp
  | cons e us ih =>
      by_cases hc : e.2.get_usage_ratio ≤ ratio
      · simp only [List.foldl_cons, if_pos hc]
        rw [ih, mem_hsInsert]
        constructor
        · rintro ((hs | rfl) | ⟨a, ha, hr⟩)
          · exact Or.inl hs
          · exact Or.inr ⟨e.2, List.mem_cons.mpr (Or.inl rfl), hc⟩
          · exact Or.inr ⟨a, List.mem_cons_of_mem _ ha, hr⟩
        · rintro (hs | ⟨a, ha, hr⟩)
          · exact Or.inl (Or.inl hs)
          · rcases List.mem_cons.mp ha with h | h
            · exact Or.inl (Or.inr (congrArg Prod.fst h))
            · exact Or.inr ⟨a, h, hr⟩
      · simp only [List.foldl_cons, if_neg hc]
        rw [ih]
        constructor
        · rintro (hs | ⟨a, ha, hr⟩)
          · exact Or.inl hs
          · exact Or.inr ⟨a, List.mem_cons_of_mem _ ha, hr⟩
        · rintro (hs | ⟨a, ha, hr⟩)
          · exact Or.inl hs
          · rcases List.mem_cons.mp ha with h | h
            · exfalso
              have hxa : a = e.2 := congrArg Prod.snd h
              rw [hxa] at hr
              exact hc hr
            · exact Or.inr ⟨a, h, hr⟩

theorem mem_vacuumSelect (ratio : ℚ) (usage : List (Nat × BundleAnalysis)) (x : Nat) :
    x ∈ (vacuumSelect ratio usage).1 ↔
      ∃ a, (x, a) ∈ usage ∧ a.get_usage_ratio ≤ ratio := by
  unfold vacuumSelect
  rw [vacuumSelect_go_fst, mem_select_fold]
  simp

theorem small_split (B : Nat) (usage : List (Nat × BundleAnalysis))
    (accM accD : List Nat) :
    usage.foldl
      (fun (acc : List Nat × List Nat) e =>
        if e.2.info.encoded_size * 4 < B then
          match e.2.info.mode with
          | BundleMode.Meta => (acc.1 ++ [e.1], acc.2)
          | BundleMode.Data => (acc.1, acc.2 ++ [e.1])
        else acc)
      (accM, accD) =
    (accM ++ (usage.filter (fun e =>
        decide (e.2.info.encoded_size * 4 < B ∧ e.2.info.mode = BundleMode.Meta))).map
        (fun e => e.1),
     accD ++ (usage.filter (fun e =>
        decide (e.2.info.encoded_size * 4 < B ∧ e.2.info.mode = BundleMode.Data))).map
        (fun e => e.1)) := by
  induction usage generalizing accM accD with
  | nil => simp
  | cons e us ih =>
      by_cases hsm : e.2.info.encoded_size * 4 < B
      · cases hm : e.2.info.mode
        · simp only [List.foldl_cons, if_pos hsm, hm]
          rw [ih]
          simp [List.filter_cons, hsm, hm]
        · simp only [List.foldl_cons, if_pos hsm, hm]
          rw [ih]
          simp [List.filter_cons, hsm, hm]
      · simp only [List.foldl_cons, if_neg hsm]
        rw [ih]
        simp [List.filter_cons, hsm]

theorem mem_vacuumCombine (B : Nat) (usage : List (Nat × BundleAnalysis))
    (s : List Nat) (x : Nat) :
    x ∈ vacuumCombine true B usage s ↔
      x ∈ s ∨
      (2 ≤ (usage.filter (fun e =>
          decide (e.2.info.encoded_size * 4 < B ∧ e.2.info.mode = BundleMode.Meta))).length ∧
        x ∈ (usage.filter (fun e =>
          decide (e.2.info.encoded_size * 4 < B ∧ e.2.info.mode = BundleMode.Meta))).map
          (fun e => e.1)) ∨
      (2 ≤ (usage.filter (fun e =>
          decide (e.2.info.encoded_size * 4 < B ∧ e.2.info.mode = BundleMode.Data))).length ∧
        x ∈ (usage.filter (fun e =>
          decide (e.2.info.encoded_size * 4 < B ∧ e.2.info.mode = BundleMode.Data))).map
          (fun e => e.1)) := by
  simp only [vacuumCombine, if_true]
  rw [small_split B usage [] []]
  simp only [List.nil_append, List.length_map]
  split_ifs with h1 h2 h3 <;> (try simp only [mem_foldl_hsInsert]) <;> tauto

/-- Claim C2: the rewrite set vacuum computes (vacuum.rs lines 41-70) contains
a bundle id iff some usage entry for it has usage ratio at most `ratio`, or
combine is set and some usage entry for it is small (encoded size strictly
below a quarter of the configured bundle size) with at least two small
bundles of that same mode present -- the two modes being independent. -/
theorem rewrite_set_characterization (ratio : ℚ) (combine : Bool) (B : Nat)
    (usage : List (Nat × BundleAnalysis)) (id : Nat) :
    id ∈ rewriteSet ratio combine B usage ↔
      (∃ a, (id, a) ∈ usage ∧ a.get_usage_ratio ≤ ratio) ∨
      (combine = true ∧ ∃ a, (id, a) ∈ usage ∧ a.info.encoded_size * 4 < B ∧
        2 ≤ (usage.filter (fun e =>
          decide (e.2.info.encoded_size * 4 < B ∧
            e.2.info.mode = a.info.mode))).length) := by
  cases combine with
  | false =>
      simp only [rewriteSet, vacuumCombine, Bool.false_eq_true, if_false, false_and,
        or_false]
      exact mem_vacuumSelect ratio usage id
  | true =>
      rw [rewriteSet, mem_vacuumCombine, mem_vacuumSelect]
      simp only [true_and]
      constructor
      · rintro (hsel | ⟨hl, hm⟩ | ⟨hl, hm⟩)
        · exact Or.inl hsel
        · obtain ⟨e, he, hfst⟩ := List.mem_map.mp hm
          have hf := List.mem_filter.mp he
          have hp := of_decide_eq_true hf.2
          refine Or.inr ⟨e.2, ?_, hp.1, ?_⟩
          · rw [← hfst]
            exact hf.1
          · simp only [hp.2]
            exact hl
        · obtain ⟨e, he, hfst⟩ := List.mem_map.mp hm
          have hf := List.mem_filter.mp he
          have hp := of_decide_eq_true hf.2
          refine Or.inr ⟨e.2, ?_, hp.1, ?_⟩
          · rw [← hfst]
            exact hf.1
          · simp only [hp.2]
            exact hl
      · rintro (hsel | ⟨a, ha, hsm, hcnt⟩)
        · exact Or.inl hsel
        · cases hmode : a.info.mode with
          | Meta =>
              refine Or.inr (Or.inl ⟨?_, ?_⟩)
              · simpa only [hmode] using hcnt
              · exact List.mem_map.mpr
                  ⟨(id, a), List.mem_filter.mpr ⟨ha, by simp [hsm, hmode]⟩, rfl⟩
          | Data =>
              refine Or.inr (Or.inr ⟨?_, ?_⟩)
              · simpa only [hmode] using hcnt
              · exact List.mem_map.mpr
                  ⟨(id, a), List.mem_filter.mpr ⟨ha, by simp [hsm, hmode]⟩, rfl⟩

theorem bmGet_isSome_mem_keys (m : BundleMap) (id : Nat)
    (h : bmGet m id ≠ none) : id ∈ m.map (fun e => e.1) := by
  unfold bmGet at h
  cases hf : m.find? (fun e => decide (e.1 = id)) with
  | none => rw [hf] at h; simp at h
  | some e =>
      have hp := List.find?_some hf
      have hm := List.mem_of_find?_eq_some hf
      simp only [decide_eq_true_eq] at hp
      exact hp ▸ List.mem_map.mpr ⟨e, hm, rfl⟩

theorem exists_free_id (m : BundleMap) (s : Nat) :
    ∃ k, k ≤ m.length ∧ bmGet m (s + k) = none := by
  by_contra hcon
  push_neg at hcon
  have hmem : ∀ k, k ≤ m.length → (s + k) ∈ m.map (fun e => e.1) := by
    intro k hk
    exact bmGet_isSome_mem_keys m (s + k) (hcon k hk)
  have hnodup : ((List.range (m.length + 1)).map (fun k => s + k)).Nodup :=
    List.Nodup.map (fun a b hab => by omega) (List.nodup_range (m.length + 1))
  have hsub : ((List.range (m.length + 1)).map (fun k => s + k)) ⊆
      m.map (fun e => e.1) := by
    intro x hx
    obtain ⟨k, hk, rfl⟩ := List.mem_map.mp hx
    exact hmem k (by simpa [Nat.lt_succ_iff] using List.mem_range.mp hk)
  have h1 : ((List.range (m.length + 1)).map (fun k => s + k)).toFinset.card =
      ((List.range (m.length + 1)).map (fun k => s + k)).length :=
    List.toFinset_card_of_nodup hnodup
  have h2 : ((List.range (m.length + 1)).map (fun k => s + k)).toFinset ⊆
      (m.map (fun e => e.1)).toFinset := by
    intro x hx
    rw [List.mem_toFinset] at hx ⊢
    exact hsub hx
  have h3 : (m.map (fun e => e.1)).toFinset.card ≤ (m.map (fun e => e.1)).length :=
    (m.map (fun e => e.1)).toFinset_card_le
  have h4 := (Finset.card_le_card h2).trans h3
  rw [h1] at h4
  simp only [List.length_map, List.length_range] at h4
  omega

theorem searchFree_spec (m : BundleMap) (s fuel : Nat)
    (hex : ∃ k, k < fuel ∧ bmGet m (s + k) = none) :
    bmGet m (searchFree m s fuel) = none ∧ s ≤ searchFree m s fuel ∧
    ∀ j, s ≤ j → j < searchFree m s fuel → bmGet m j ≠ none := by
  induction fuel generalizing s with
  | zero =>
      obtain ⟨k, hk, _⟩ := hex
      omega
  | succ fuel ih =>
      by_cases h0 : bmGet m s = none
      · simp only [searchFree, if_pos h0]
        exact ⟨h0, Nat.le_refl s, fun j hj1 hj2 => by omega⟩
      · simp only [searchFree, if_neg h0]
        obtain ⟨k, hk, hfree⟩ := hex
        have hk0 : k ≠ 0 := by
          rintro rfl
          rw [Nat.add_zero] at hfree
          exact h0 hfree
        have hex' : ∃ k', k' < fuel ∧ bmGet m (s + 1 + k') = none := by
          refine ⟨k - 1, by omega, ?_⟩
          rw [show s + 1 + (k - 1) = s + k by omega]
          exact hfree
        obtain ⟨hfree', hle', hmin'⟩ := ih (s + 1) hex'
        refine ⟨hfree', by omega, ?_⟩
        intro j hj1 hj2
        rcases Nat.eq_or_lt_of_le hj1 with heq | hlt
        · rw [← heq]
          exact h0
        · exact hmin' j (by omega) hj2

/-- Claim C5: next_free_bundle_id (mod.rs lines 187-194) returns the smallest
id strictly greater than both watermarks that is not present in the bundle
map. -/
theorem next_free_bundle_id_spec (st : Repository) :
    st.next_data_bundle < st.next_free_bundle_id ∧
    st.next_meta_bundle < st.next_free_bundle_id ∧
    bmGet st.bundle_map st.next_free_bundle_id = none ∧
    ∀ j, st.next_data_bundle < j → st.next_meta_bundle < j →
      bmGet st.bundle_map j = none → st.next_free_bundle_id ≤ j := by
  have hmaxd := Nat.le_max_left st.next_data_bundle st.next_meta_bundle
  have hmaxm := Nat.le_max_right st.next_data_bundle st.next_meta_bundle
  obtain ⟨k, hk, hfree⟩ :=
    exists_free_id st.bundle_map (Nat.max st.next_data_bundle st.next_meta_bundle + 1)
  have hex : ∃ k, k < st.bundle_map.length + 1 ∧
      bmGet st.bundle_map
        (Nat.max st.next_data_bundle st.next_meta_bundle + 1 + k) = none :=
    ⟨k, by omega, hfree⟩
  obtain ⟨h1, h2, h3⟩ := searchFree_spec st.bundle_map
    (Nat.max st.next_data_bundle st.next_meta_bundle + 1)
    (st.bundle_map.length + 1) hex
  have hd : st.next_data_bundle <
      Nat.max st.next_data_bundle st.next_meta_bundle + 1 :=
    Nat.lt_succ_of_le (Nat.le_max_left _ _)
  have hm : st.next_meta_bundle <
      Nat.max st.next_data_bundle st.next_meta_bundle + 1 :=
    Nat.lt_succ_of_le (Nat.le_max_right _ _)
  refine ⟨Nat.lt_of_lt_of_le hd h2, Nat.lt_of_lt_of_le hm h2, h1, ?_⟩
  intro j hjd hjm hjfree
  by_contra hcon
  push_neg at hcon
  have hsle : Nat.max st.next_data_bundle st.next_meta_bundle + 1 ≤ j :=
    Nat.succ_le_of_lt (Nat.max_lt.mpr ⟨hjd, hjm⟩)
  exact h3 j hsle hcon hjfree

/-- Claim C5 witness: in demoRepoGone (watermarks 5 and 5, ids 3 and 4
mapped) the next free id is above both watermarks, unmapped, and minimal
among the ids satisfying the constraints (checked at j = 8). -/
theorem next_free_bundle_id_spec_witness :
    demoRepoGone.next_data_bundle < demoRepoGone.next_free_bundle_id ∧
    demoRepoGone.next_meta_bundle < demoRepoGone.next_free_bundle_id ∧
    bmGet demoRepoGone.bundle_map demoRepoGone.next_free_bundle_id = none ∧
    demoRepoGone.next_free_bundle_id ≤ 8 :=
  ⟨(next_free_bundle_id_spec demoRepoGone).1,
   (next_free_bundle_id_spec demoRepoGone).2.1,
   (next_free_bundle_id_spec demoRepoGone).2.2.1,
   (next_free_bundle_id_spec demoRepoGone).2.2.2 8 (by decide) (by decide) (by decide)⟩

theorem idxGet_foldl_idxSet (es : List (Hash × Location)) (idx : Index) (h : Hash) :
    idxGet (es.foldl (fun i e => idxSet i e.1 e.2) idx) h =
      match es.reverse.find? (fun e => decide (e.1 = h)) with
      | some u => some u.2
      | none => idxGet idx h := by
  induction es generalizing idx with
  | nil => simp
  | cons e rest ih =>
      simp only [List.foldl_cons, List.reverse_cons, List.find?_append]
      rw [ih]
      cases hf : rest.reverse.find? (fun e => decide (e.1 = h)) with
      | some u => rfl
      | none =>
          show idxGet (idxSet idx e.1 e.2) h = _
          rw [idxGet_idxSet]
          by_cases he : h = e.1
          · subst he
            simp [List.find?]
          · have he' : ¬ e.1 = h := fun c => he c.symm
            simp [List.find?, he, he']

theorem rebuildIndexGo_ok (db : BundleDb) (ms : List (Nat × ContentId))
    (idx idx' : Index) (hok : rebuildIndexGo db ms idx = Except.ok idx') :
    idx' = (ms.bind (fun e =>
      ((dbGetChunkList db e.2).getD []).enum.map
        (fun p => (p.2.1, (⟨e.1, p.1⟩ : Location))))).foldl
      (fun i e => idxSet i e.1 e.2) idx := by
  induction ms generalizing idx with
  | nil =>
      simp only [rebuildIndexGo] at hok
      cases hok
      simp
  | cons e rest ih =>
      simp only [rebuildIndexGo] at hok
      cases hcl : dbGetChunkList db e.2 with
      | none =>
          rw [hcl] at hok
          cases hok
      | some chunks =>
          rw [hcl] at hok
          have hrec := ih _ hok
          rw [hrec]
          simp only [List.cons_bind, hcl, Option.getD_some]
          rw [List.foldl_append, List.foldl_map]

/-- Claim C8: when rebuild_index returns Ok, the resulting index maps each
hash to the location of the LAST insertion for that hash in the sequence
obtained by iterating the bundle map in order and enumerating each bundle's
chunk list (later insertions overwrite earlier ones), and to nothing when no
such insertion exists (the index was cleared first). -/
theorem rebuild_index_spec (st st' : Repository)
    (hok : st.rebuild_index = Except.ok st') (h : Hash) :
    idxGet st'.index h =
      ((rebuildEntrySeq st).reverse.find? (fun e => decide (e.1 = h))).map
        (fun e => e.2) := by
  unfold Repository.rebuild_index at hok
  cases hgo : rebuildIndexGo st.bundles st.bundle_map [] with
  | error e =>
      rw [hgo] at hok
      cases hok
  | ok idx =>
      rw [hgo] at hok
      cases hok
      have hidx := rebuildIndexGo_ok st.bundles st.bundle_map [] idx hgo
      show idxGet idx h = _
      rw [hidx, idxGet_foldl_idxSet]
      change (match (rebuildEntrySeq st).reverse.find? (fun e => decide (e.1 = h)) with
        | some u => some u.2
        | none => idxGet [] h) = _
      cases (rebuildEntrySeq st).reverse.find? (fun e => decide (e.1 = h)) with
      | some u => rfl
      | none => rfl

/-- Claim C8 witness: rebuilding demoRepoRebuild (one bundle, id 2, chunk
hashes 7 and 8) and evaluating both sides at hash 8. -/
theorem rebuild_index_spec_witness :
    idxGet demoRepoRebuilt.index 8 =
      ((rebuildEntrySeq demoRepoRebuild).reverse.find? (fun e => decide (e.1 = 8))).map
        (fun e => e.2) :=
  rebuild_index_spec demoRepoRebuild demoRepoRebuilt (by decide) 8

theorem delete_bundle_index_frame (st : Repository) (id : Nat) (st' : Repository)
    (hok : st.delete_bundle id = Except.ok st') : st'.index = st.index := by
  unfold Repository.delete_bundle bmRemove at hok
  cases hg : bmGet st.bundle_map id with
  | none =>
      rw [hg] at hok
      cases hok
  | some cid =>
      rw [hg] at hok
      cases hok
      rfl

theorem deleteLoop_index_frame (ids : List Nat) (st st' : Repository)
    (hok : deleteLoop ids st = Except.ok st') : st'.index = st.index := by
  induction ids generalizing st with
  | nil =>
      simp only [deleteLoop] at hok
      cases hok
      rfl
  | cons id rest ih =>
      simp only [deleteLoop] at hok
      cases hdel : st.delete_bundle id with
      | error e =>
          rw [hdel] at hok
          cases hok
      | ok st1 =>
          rw [hdel] at hok
          rw [ih st1 hok, delete_bundle_index_frame st id st1 hdel]

/-- Claim C1: invariant V of vacuum (vacuum.rs lines 99-114).  First part: if
vacuum(ratio, combine, force=true) returns Ok, every surviving index entry
references a bundle outside the rewrite set.  Second part: if after the
rewrite phase and its flush some index entry still points into the rewrite
set, vacuum aborts with the panic error carrying exactly the post-rewrite
state sp -- a state to which no bundle deletion has been applied. -/
theorem vacuum_invariant_v (ratio : ℚ) (combine : Bool) (st st' sp : Repository) :
    (st.vacuum ratio combine true = Except.ok st' →
      ∀ e ∈ st'.index, e.2.bundle ∉ vacuumRewriteIds st ratio combine) ∧
    (vacuumAfterRewrite st ratio combine = Except.ok sp →
      sp.index.any
        (fun e => (vacuumRewriteIds st ratio combine).contains e.2.bundle) = true →
      st.vacuum ratio combine true =
        Except.error (RepositoryError.panic_index_referenced sp)) := by
  constructor
  · intro hok e hmem
    unfold Repository.vacuum at hok
    simp only [Bool.not_true, Bool.false_eq_true, if_false] at hok
    cases hloop : rewriteLoop st.flush.analyze_usage.1
        (rewriteSet ratio combine st.flush.config.bundle_size st.flush.analyze_usage.1)
        st.flush.analyze_usage.2 with
    | error er =>
        simp only [hloop] at hok
        cases hok
    | ok st3 =>
        simp only [hloop] at hok
        cases hany : st3.flush.index.any
            (fun e => (rewriteSet ratio combine st.flush.config.bundle_size
              st.flush.analyze_usage.1).contains e.2.bundle) with
        | true =>
            simp only [hany, if_true] at hok
            cases hok
        | false =>
            simp only [hany, Bool.false_eq_true, if_false] at hok
            cases hdl : deleteLoop (rewriteSet ratio combine
                st.flush.config.bundle_size st.flush.analyze_usage.1) st3.flush with
            | error er =>
                simp only [hdl] at hok
                cases hok
            | ok st5 =>
                simp only [hdl, Except.ok.injEq] at hok
                have hidx : st'.index = st3.flush.index := by
                  rw [← hok]
                  show st5.index = _
                  exact deleteLoop_index_frame _ _ _ hdl
                rw [hidx] at hmem
                have hall := List.any_eq_false.mp hany
                have hcon := hall e hmem
                show ¬ e.2.bundle ∈ vacuumRewriteIds st ratio combine
                intro hin
                apply hcon
                show (rewriteSet ratio combine st.flush.config.bundle_size
                    st.flush.analyze_usage.1).contains e.2.bundle = true
                have hin' : e.2.bundle ∈ rewriteSet ratio combine
                    st.flush.config.bundle_size st.flush.analyze_usage.1 := hin
                exact List.elem_eq_true_of_mem hin'
  · intro hrw hany
    unfold vacuumAfterRewrite at hrw
    unfold vacuumRewriteIds at hany
    unfold Repository.vacuum
    simp only [Bool.not_true, Bool.false_eq_true, if_false]
    cases hloop : rewriteLoop st.flush.analyze_usage.1
        (rewriteSet ratio combine st.flush.config.bundle_size st.flush.analyze_usage.1)
        st.flush.analyze_usage.2 with
    | error er =>
        simp only [hloop] at hrw
        cases hrw
    | ok st3 =>
        simp only [hloop, Except.ok.injEq] at hrw
        subst hrw
        show (if (st3.flush.index.any
            (fun e => (rewriteSet ratio combine st.flush.config.bundle_size
              st.flush.analyze_usage.1).contains e.2.bundle)) = true then
          Except.error (RepositoryError.panic_index_referenced st3.flush)
        else _) = _
        rw [hany]
        rfl

/-- Claim C1 witness: part one at the empty repository (vacuum succeeds and
the surviving index is empty); part two at demoRepoStale, whose index entry
(hash 7, bundle 5) survives the rewrite of bundle 5's empty chunk list, so
vacuum aborts with the panic carrying the undeleted post-rewrite state. -/
theorem vacuum_invariant_v_witness :
    (∀ e ∈ demoRepoEmpty.index, e.2.bundle ∉ vacuumRewriteIds demoRepoEmpty 0 false) ∧
    demoRepoStale.vacuum 0 false true =
      Except.error (RepositoryError.panic_index_referenced demoRepoStaleDirty) :=
  ⟨(vacuum_invariant_v 0 false demoRepoEmpty demoRepoEmpty demoRepoEmpty).1 (by decide),
   (vacuum_invariant_v 0 false demoRepoStale demoRepoStale demoRepoStaleDirty).2
     (by decide) (by decide)⟩
